import Mathlib

/-!
Verification of the simple CSV handler
(`src/cpp/04-data-science/02-simple-csv-handler.cpp`).

The C++ file defines three functions:

* `escape_csv_field` — a pure function escaping one field for CSV output;
* `write_csv`        — writes a table to a file, one line per row, fields
                       escaped and joined by commas, LF after every row;
* `read_csv`         — reads a file line by line (`std::getline`), strips a
                       trailing CR from each line, and parses each line with a
                       character-stream loop into a row of fields.

The embedding below is a direct translation.  Fields are `String`
(`List Char` underneath), rows are `List String`, tables are
`List (List String)`.  File I/O is modelled by passing the file's text
content as a `String`; the success flags of the C++ streams (`is_open`,
`fail`) are modelled as explicit booleans where a claim needs them.
-/

namespace Csv

/-- A character is special for CSV quoting purposes: comma, LF or
double quote.  Mirrors the test `c == ',' || c == '\n' || c == '"'`
in `escape_csv_field`. -/
def isSpecial (c : Char) : Bool :=
  c == ',' || c == '\n' || c == '"'

/-- The loop body of `escape_csv_field`: walk the field once, recording
whether any special character was seen (`needs_quoting`) and building the
field with every double quote doubled (`escaped_field`). -/
def escapeLoop : List Char → Bool → List Char → Bool × List Char
  | [], needs, acc => (needs, acc)
  | c :: cs, needs, acc =>
      escapeLoop cs (needs || isSpecial c)
        (if c = '"' then acc ++ ['"', '"'] else acc ++ [c])

/-- `escape_csv_field` from the C++ source: if the field contains a comma,
LF or quote, return the quote-doubled field wrapped in outer quotes;
otherwise return the original field unchanged. -/
def escape_csv_field (f : String) : String :=
  let r := escapeLoop f.data false []
  if r.1 then String.mk ('"' :: r.2 ++ ['"']) else f

/-- The inner loop of `write_csv` for one row: each field is escaped, and a
comma is written after every field except the last (`if (j < row.size() - 1)`). -/
def writeRowChars : List String → List Char
  | [] => []
  | [f] => (escape_csv_field f).data
  | f :: g :: rest => (escape_csv_field f).data ++ ',' :: writeRowChars (g :: rest)

/-- The outer loop of `write_csv`: every row, including the last, is
followed by one `'\n'`. -/
def writeTableChars : List (List String) → List Char
  | [] => []
  | row :: rest => writeRowChars row ++ '\n' :: writeTableChars rest

/-- The text that `write_csv` sends to the output stream. -/
def write_csv_content (table : List (List String)) : String :=
  String.mk (writeTableChars table)

/-- `write_csv` with the stream state made explicit: `openOk` is
`outfile.is_open()` after construction, `writeOk` is the negation of
`outfile.fail()` after the writing loop.  The C++ function returns `false`
and writes nothing if the file does not open, otherwise it writes the whole
content and returns `false` exactly when the stream reports a write error. -/
def write_csv (openOk : Bool) (writeOk : Bool)
    (table : List (List String)) : Bool × String :=
  if openOk = false then (false, "")
  else (writeOk, write_csv_content table)

/-- Parser state of the character loop in `read_csv`, one line at a time.

* `start`: the outer `while (line_stream.get(c))` is about to read the first
  character of a field;
* `unq acc`: inside the non-quoted branch, `acc` is the field so far;
* `quo acc`: inside the quoted inner loop, `acc` is `quoted_content`;
* `quoq acc`: a `'"'` was just read inside the quoted loop and the code is
  inspecting `line_stream.peek()` to decide between an escaped quote and the
  end of the quoted field.

The guard `if (line_stream.eof() && field.empty() && c == '\0') break;` in
the C++ source is dead code — `get(c)` leaves `eofbit` clear whenever it
succeeds — and is therefore not modelled. -/
inductive Mode where
  | start : Mode
  | unq : List Char → Mode
  | quo : List Char → Mode
  | quoq : List Char → Mode

/-- The character loop of `read_csv` on one line, as a step function over
the remaining characters.  Faithfully reproduces the C++ control flow:

* at `start`, a `'"'` enters the quoted branch with empty content, any other
  character (a comma included) starts a non-quoted field containing it;
* in `unq`, characters accumulate until the lookahead sees a comma
  (`while (peek != EOF && peek != ',')`); the comma is consumed and the loop
  returns to `start`;
* in `quo`, a `'"'` moves to `quoq`; anything else is content;
* in `quoq`, a second `'"'` emits one literal quote and returns to `quo`;
  a comma ends the field and is consumed; end of input ends the field; any
  other character ends the field and immediately starts a new non-quoted
  field containing that character (the `peek` is neither comma nor EOF, so
  the outer loop simply reads it as the next field's first character);
* when the input ends in `unq`, `quo` (unterminated quote) or `quoq`, the
  accumulated field is pushed; at `start` nothing is pushed. -/
def parseFieldsAux : Mode → List Char → List String
  | .start, [] => []
  | .unq acc, [] => [String.mk acc]
  | .quo acc, [] => [String.mk acc]
  | .quoq acc, [] => [String.mk acc]
  | .start, c :: rest =>
      if c = '"' then parseFieldsAux (.quo []) rest
      else parseFieldsAux (.unq [c]) rest
  | .unq acc, c :: rest =>
      if c = ',' then String.mk acc :: parseFieldsAux .start rest
      else parseFieldsAux (.unq (acc ++ [c])) rest
  | .quo acc, c :: rest =>
      if c = '"' then parseFieldsAux (.quoq acc) rest
      else parseFieldsAux (.quo (acc ++ [c])) rest
  | .quoq acc, c :: rest =>
      if c = '"' then parseFieldsAux (.quo (acc ++ ['"'])) rest
      else if c = ',' then String.mk acc :: parseFieldsAux .start rest
      else String.mk acc :: parseFieldsAux (.unq [c]) rest

/-- The field loop of `read_csv` applied to a whole line. -/
def parseFields (l : List Char) : List String :=
  parseFieldsAux .start l

/-- One line of `read_csv` after the CR strip: run the field loop, then
append one empty field when the raw line ends in a comma
(`if (!line.empty() && line.back() == ',') row.push_back("")`). -/
def parseLine (line : List Char) : List String :=
  if line.getLast? = some ',' then parseFields line ++ [""]
  else parseFields line

/-- The CR strip at the top of the `read_csv` line loop:
`if (!line.empty() && line.back() == '\r') line.pop_back()`. -/
def stripCR (line : List Char) : List Char :=
  if line.getLast? = some '\r' then line.dropLast else line

/-- `std::getline` iterated over the whole file content: each element is one
extracted line paired with the `eofbit` state after the extraction (`true`
exactly when the line was terminated by end of input rather than `'\n'`).
A final `([], true)` entry corresponds to a `getline` call that extracts
nothing and fails, ending the C++ `while` loop. -/
def splitLinesAux : List Char → List Char → List (List Char × Bool)
  | acc, [] => [(acc, true)]
  | acc, c :: rest =>
      if c = '\n' then (acc, false) :: splitLinesAux [] rest
      else splitLinesAux (acc ++ [c]) rest

/-- `read_csv` on the text content of an opened file: split into `getline`
lines, strip a trailing CR from each, skip a line that is empty with
`eofbit` set (`if (line.empty() && infile.eof()) continue;` — and the final
failed `getline`, which extracts nothing at end of input, is the same
case), and parse every remaining line into a row. -/
def read_csv (content : String) : List (List String) :=
  (splitLinesAux [] content.data).filterMap fun le =>
    if le.2 && (stripCR le.1).isEmpty then none
    else some (parseLine (stripCR le.1))

/-- `read_csv` with the `is_open` check made explicit: when the file cannot
be opened the function prints an error and returns the empty table without
touching the content. -/
def read_csv_file (openOk : Bool) (content : String) : List (List String) :=
  if openOk then read_csv content else []

/-- Quote doubling as a one-liner, used to state properties of
`escape_csv_field`. -/
def dbl (l : List Char) : List Char :=
  l.flatMap fun c => if c = '"' then ['"', '"'] else [c]

end Csv

namespace Csv

/-! ### Helper lemmas about the embedded definitions -/

lemma escapeLoop_eq (l : List Char) : ∀ (needs : Bool) (acc : List Char),
    escapeLoop l needs acc = (needs || l.any isSpecial, acc ++ dbl l) := by
  induction l with
  | nil => intro needs acc; simp [escapeLoop, dbl]
  | cons c cs ih =>
      intro needs acc
      by_cases hc : c = '"' <;>
        simp [escapeLoop, ih, dbl, hc, Bool.or_assoc]

lemma escape_eq (f : String) :
    escape_csv_field f =
      if f.data.any isSpecial then String.mk ('"' :: dbl f.data ++ ['"']) else f := by
  simp [escape_csv_field, escapeLoop_eq]

lemma unq_head (l : List Char) : ∀ acc : List Char,
    (parseFieldsAux (.unq acc) l).head? =
      some (String.mk (acc ++ l.takeWhile (· ≠ ','))) := by
  induction l with
  | nil => intro acc; simp [parseFieldsAux]
  | cons c cs ih =>
      intro acc
      by_cases hc : c = ','
      · simp [parseFieldsAux, hc]
      · simp [parseFieldsAux, hc, ih]

lemma unq_noComma (l : List Char) : ∀ acc : List Char, ',' ∉ l →
    parseFieldsAux (.unq acc) l = [String.mk (acc ++ l)] := by
  induction l with
  | nil => intro acc _; simp [parseFieldsAux]
  | cons c cs ih =>
      intro acc h
      have hc : ¬(c = ',') := fun hh => h (hh ▸ List.mem_cons_self c cs)
      have hcs : ',' ∉ cs := fun hh => h (List.mem_cons_of_mem c hh)
      simp [parseFieldsAux, hc, ih _ hcs]

lemma dbl_nil : dbl [] = [] := rfl

lemma dbl_cons (c : Char) (cs : List Char) :
    dbl (c :: cs) = (if c = '"' then ['"', '"'] else [c]) ++ dbl cs := by
  by_cases hc : c = '"' <;> simp [dbl, hc]

lemma quo_closed (l : List Char) : ∀ acc : List Char,
    parseFieldsAux (.quo acc) (dbl l ++ ['"']) = [String.mk (acc ++ l)] := by
  induction l with
  | nil => intro acc; simp [dbl_nil, parseFieldsAux]
  | cons c cs ih =>
      intro acc
      rw [dbl_cons]
      by_cases hc : c = '"'
      · subst hc
        rw [if_pos rfl]
        show parseFieldsAux (.quo acc) ('"' :: '"' :: (dbl cs ++ ['"'])) = _
        simp only [parseFieldsAux, if_pos rfl]
        rw [ih]
        simp
      · rw [if_neg hc]
        show parseFieldsAux (.quo acc) (c :: (dbl cs ++ ['"'])) = _
        simp only [parseFieldsAux, if_neg hc]
        rw [ih]
        simp

lemma mem_dbl_of_ne {c : Char} {l : List Char} (hne : c ≠ '"') :
    c ∈ dbl l ↔ c ∈ l := by
  simp only [dbl, List.mem_flatMap]
  constructor
  · rintro ⟨a, ha, hc⟩
    by_cases h : a = '"'
    · simp [h] at hc; exact absurd hc hne
    · simp [h] at hc; exact hc ▸ ha
  · intro h
    refine ⟨c, h, ?_⟩
    simp [hne]

lemma splitLines_cat (l : List Char) : ∀ (acc rest : List Char), '\n' ∉ l →
    splitLinesAux acc (l ++ '\n' :: rest) = (acc ++ l, false) :: splitLinesAux [] rest := by
  induction l with
  | nil => intro acc rest _; simp [splitLinesAux]
  | cons c cs ih =>
      intro acc rest h
      have hc : ¬(c = '\n') := fun hh => h (hh ▸ List.mem_cons_self c cs)
      have hcs : '\n' ∉ cs := fun hh => h (List.mem_cons_of_mem c hh)
      simp [splitLinesAux, hc, ih _ _ hcs]

lemma read_csv_one (l : List Char) (h : '\n' ∉ l) :
    read_csv (String.mk (l ++ ['\n'])) = [parseLine (stripCR l)] := by
  show (splitLinesAux [] (l ++ '\n' :: [])).filterMap _ = _
  rw [splitLines_cat l [] [] h]
  simp [splitLinesAux, stripCR, List.filterMap]

lemma data_ne_nil {f : String} (h : f ≠ "") : f.data ≠ [] := by
  intro hd
  apply h
  cases f
  simp_all [String.mk]

lemma mk_data (l : List Char) : (String.mk l).data = l := rfl

lemma mem_of_getLast?_eq {α : Type} {l : List α} {c : α}
    (h : l.getLast? = some c) : c ∈ l := by
  have hm : c ∈ l.getLast? := by rw [h]; rfl
  obtain ⟨hne, hx⟩ := List.mem_getLast?_eq_getLast hm
  exact hx ▸ List.getLast_mem hne

lemma mk_data_self (f : String) : String.mk f.data = f := by cases f; rfl

lemma writeRow_eq (row : List String) :
    writeRowChars row =
      List.intercalate [','] (row.map fun f => (escape_csv_field f).data) := by
  induction row with
  | nil => simp [writeRowChars, List.intercalate]
  | cons f rest ih =>
      cases rest with
      | nil => simp [writeRowChars, List.intercalate, List.intersperse]
      | cons g rest2 =>
          simp only [writeRowChars, ih]
          simp [List.intercalate, List.intersperse]

end Csv

namespace Csv

/-! ### Claim theorems -/

/-- Claim C1, counterexample: the claimed round-trip law fails for a Field
containing an embedded line break.  The Field `a\nb` is encoded by
`escape_csv_field` as a quoted field containing a literal LF, but `read_csv`
splits the written text on every LF, so decoding yields the two rows
`[["a"], ["b\""]]` instead of `[["a\nb"]]`. -/
theorem C1_counterexample :
    read_csv (write_csv_content [["a\nb"]]) ≠ [["a\nb"]] := by decide

/-- Claim C1, amended: the encode/decode round trip through `write_csv` and
`read_csv` reproduces a Field exactly, provided the Field is nonempty,
contains no LF, and does not end in a CR unless it gets quoted (that is,
unless it also contains a comma, LF or quote).  A Field with an embedded LF
is torn apart by the line-oriented reader, the empty Field decodes to an
empty Row, and a trailing CR on an unquoted Field is stripped by the
reader's CRLF handling. -/
theorem C1_roundtrip_amended (f : String) (h0 : f ≠ "") (h1 : '\n' ∉ f.data)
    (h2 : f.data.getLast? = some '\r' → f.data.any isSpecial = true) :
    read_csv (write_csv_content [[f]]) = [[f]] := by
  have hcontent : write_csv_content [[f]] =
      String.mk ((escape_csv_field f).data ++ ['\n']) := by
    simp [write_csv_content, writeTableChars, writeRowChars]
  rw [hcontent]
  by_cases hs : f.data.any isSpecial = true
  · have he : escape_csv_field f = String.mk ('"' :: dbl f.data ++ ['"']) := by
      rw [escape_eq, if_pos hs]
    rw [he, mk_data]
    have hlin : '\n' ∉ ('"' :: dbl f.data ++ ['"']) := by
      intro hmem
      rcases List.mem_cons.mp hmem with h | h
      · exact absurd h (by decide)
      · rcases List.mem_append.mp h with h | h
        · exact h1 ((mem_dbl_of_ne (by decide)).mp h)
        · simp at h
    rw [read_csv_one _ hlin]
    have hlast : ('"' :: dbl f.data ++ ['"']).getLast? = some '"' := by
      rw [show ('"' :: dbl f.data ++ ['"']) = ('"' :: dbl f.data) ++ ['"'] from rfl]
      exact List.getLast?_concat _
    have hstrip : stripCR ('"' :: dbl f.data ++ ['"']) = '"' :: dbl f.data ++ ['"'] := by
      rw [stripCR, if_neg]
      rw [hlast]
      decide
    rw [hstrip]
    have hpl : parseLine ('"' :: dbl f.data ++ ['"']) =
        parseFields ('"' :: dbl f.data ++ ['"']) := by
      rw [parseLine, if_neg]
      rw [hlast]
      decide
    rw [hpl]
    show [parseFieldsAux .start ('"' :: (dbl f.data ++ ['"']))] = [[f]]
    simp only [parseFieldsAux, if_pos rfl]
    rw [quo_closed f.data []]
    simp [mk_data_self]
  · have hs' : f.data.any isSpecial = false := by
      simpa using hs
    have hnospec : ∀ x ∈ f.data, isSpecial x = false := by
      simpa [List.any_eq_false] using hs'
    have he : escape_csv_field f = f := by
      rw [escape_eq, if_neg (by simp [hs'])]
    rw [he]
    rw [read_csv_one _ h1]
    have hlastr : f.data.getLast? ≠ some '\r' := by
      intro hr
      rw [h2 hr] at hs'
      simp at hs'
    have hstrip : stripCR f.data = f.data := by
      simp [stripCR, hlastr]
    rw [hstrip]
    have hnocomma : ',' ∉ f.data := by
      intro hm
      have := hnospec _ hm
      simp [isSpecial] at this
    have hlastc : f.data.getLast? ≠ some ',' := by
      intro hcm
      exact hnocomma (mem_of_getLast?_eq hcm)
    have hpl : parseLine f.data = parseFields f.data := by
      simp [parseLine, hlastc]
    rw [hpl]
    obtain ⟨c, cs, hcc⟩ : ∃ c cs, f.data = c :: cs := by
      cases hd : f.data with
      | nil => exact absurd hd (data_ne_nil h0)
      | cons c cs => exact ⟨c, cs, rfl⟩
    rw [hcc]
    have hcq : ¬(c = '"') := by
      intro hq
      have := hnospec c (hcc ▸ List.mem_cons_self c cs)
      simp [isSpecial, hq] at this
    show [parseFieldsAux .start (c :: cs)] = [[f]]
    simp only [parseFieldsAux, if_neg hcq]
    rw [unq_noComma cs [c] (fun hm => hnocomma (hcc ▸ List.mem_cons_of_mem c hm))]
    have : String.mk ([c] ++ cs) = f := by
      rw [show [c] ++ cs = c :: cs from rfl, ← hcc, mk_data_self]
    rw [this]

/-- Witness for `C1_roundtrip_amended` at the concrete Field `a,b`. -/
theorem C1_roundtrip_amended_witness :
    read_csv (write_csv_content [["a,b"]]) = [["a,b"]] :=
  C1_roundtrip_amended "a,b" (by decide) (by decide) (by decide)

/-- Claim C2: if a Field contains a comma, LF or quote, `escape_csv_field`
wraps the whole representation in quote characters with every internal
quote doubled; otherwise it returns the Field verbatim. -/
theorem C2_escape_format (f : String) :
    escape_csv_field f =
      if f.data.any isSpecial
      then String.mk
        ('"' :: (f.data.flatMap fun c => if c = '"' then ['"', '"'] else [c]) ++ ['"'])
      else f := by
  rw [escape_eq]
  rfl

/-- Claim C3: the code does not preserve the empty Field between two
consecutive commas.  Decoding the line `a,,c` yields `["a", ",c"]` — after
the first delimiter is consumed, the non-quoted branch unconditionally
appends the next character (here the second comma) to the new field — and
not the `["a", "", "c"]` required by the claim. -/
theorem C3_consecutive_commas :
    parseLine ("a,,c".data) = ["a", ",c"] ∧
      parseLine ("a,,c".data) ≠ ["a", "", "c"] := by decide

/-- Claim C4, counterexample: decoding a file made of one empty line does
not produce a Row with one empty Field. -/
theorem C4_counterexample : read_csv "\n" ≠ [[""]] := by decide

/-- Claim C4, amended: decoding an empty input line yields exactly one Row
containing zero Fields — the field loop never runs on an empty line, so an
empty Row is pushed (neither the claimed one-empty-Field Row nor zero
Rows). -/
theorem C4_empty_line_amended :
    read_csv "\n" = [[]] ∧ parseLine [] = [] := by decide

/-- Claim C5: every input line ending in a comma decodes to a Row whose
last Field is the empty Field, and concretely the line `a,b,` decodes to
`["a", "b", ""]`. -/
theorem C5_trailing_delimiter :
    (∀ line : List Char, line.getLast? = some ',' →
        (parseLine line).getLast? = some "") ∧
      parseLine ("a,b,".data) = ["a", "b", ""] := by
  constructor
  · intro line h
    rw [parseLine, if_pos h]
    simp
  · decide

/-- Witness for `C5_trailing_delimiter` at the concrete line `x,`. -/
theorem C5_trailing_delimiter_witness :
    (parseLine ("x,".data)).getLast? = some "" :=
  C5_trailing_delimiter.1 ("x,".data) (by decide)

/-- Claim C6: the Field `He said "hi"` encodes to exactly
`"He said ""hi"""`, and decoding that text as one line returns the
original Field unchanged. -/
theorem C6_scenarioB_roundtrip :
    escape_csv_field "He said \"hi\"" = "\"He said \"\"hi\"\"\"" ∧
      parseLine ((escape_csv_field "He said \"hi\"").data) = ["He said \"hi\""] := by
  decide

/-- Claim C7: the text produced by the writer consists, for each Row, of
the escaped Fields joined by exactly one comma, with every Row — the last
included — terminated by exactly one LF. -/
theorem C7_write_format (table : List (List String)) :
    (write_csv_content table).data =
      (table.map fun row =>
        List.intercalate [','] (row.map fun f => (escape_csv_field f).data)
          ++ ['\n']).flatten := by
  show writeTableChars table = _
  induction table with
  | nil => rfl
  | cons row rest ih =>
      simp [writeTableChars, writeRow_eq, ih]

/-- Claim C8: `write_csv` returns `true` exactly when the output file could
be opened and no write error occurred; any failure of the destination is
reported to the caller as `false`, never swallowed. -/
theorem C8_write_error_reported (openOk writeOk : Bool) (table : List (List String)) :
    (write_csv openOk writeOk table).1 = true ↔ openOk = true ∧ writeOk = true := by
  cases openOk <;> cases writeOk <;> simp [write_csv]

/-- Claim C9: when the input file cannot be opened, `read_csv` returns the
empty Table whatever the file content would have been. -/
theorem C9_read_open_failure (content : String) :
    read_csv_file false content = [] := rfl

/-- Claim C10: when the first character of a Field is not a quote, the
Decoder never enters quoted mode for that Field: the Field consists
verbatim of that character and everything up to the next comma or the end
of the line, quote characters included as literal content. -/
theorem C10_unquoted_quote_literal (c : Char) (rest : List Char) (h : c ≠ '"') :
    (parseFields (c :: rest)).head? =
      some (String.mk (c :: rest.takeWhile (· ≠ ','))) := by
  show (parseFieldsAux .start (c :: rest)).head? = _
  simp only [parseFieldsAux, if_neg h]
  rw [unq_head]
  rfl

/-- Witness for `C10_unquoted_quote_literal`: the line `ab"c,d` starts with
the non-quote character `a`, and its first Field is `ab"c` with the quote
kept literally. -/
theorem C10_unquoted_quote_literal_witness :
    (parseFields ('a' :: "b\"c,d".data)).head? =
      some (String.mk ('a' :: ("b\"c,d".data).takeWhile (· ≠ ','))) :=
  C10_unquoted_quote_literal 'a' ("b\"c,d".data) (by decide)

end Csv
